import Mathlib

/-!
Shallow embedding of the gitmanager repository core
(src/utils/auth.py, src/utils/github_manager.py, src/utils/git_operations.py,
src/pages/01_Repository_List.py) and verification of its specification claims.

Python strings are modelled as `List Char`; fallible attribute accesses and
subprocess/network primitives are modelled as `Except` values supplied by an
environment record; Python exceptions propagate as `Except.error`.
-/

/-- Lowercasing of a Python string (`str.lower()` on the ASCII range). -/
def toLowerL (s : List Char) : List Char := s.map Char.toLower

/-- Python `in` on strings: substring containment, as a Bool. -/
def isSubL (needle hay : List Char) : Bool := decide (needle <:+: hay)

/-- ASCII whitespace removed by Python `str.strip()`. -/
def isPyWs (c : Char) : Bool :=
  c = ' ' || c = '\t' || c = '\n' || c = '\r' || c = '\x0b' || c = '\x0c'

/-- Python `str.strip()`: drop leading and trailing whitespace. -/
def pyStrip (s : List Char) : List Char :=
  ((s.dropWhile isPyWs).reverse.dropWhile isPyWs).reverse

/-- The character class `[a-zA-Z0-9]` of the classic-token regex. -/
def isAsciiAlnum (c : Char) : Bool :=
  ('a' ≤ c && c ≤ 'z') || ('A' ≤ c && c ≤ 'Z') || ('0' ≤ c && c ≤ '9')

/-- The character class `[a-zA-Z0-9_]` of the fine-grained-token regex. -/
def isAsciiAlnumU (c : Char) : Bool := isAsciiAlnum c || c = '_'

/-- Python `$` anchor outside MULTILINE mode: the position after the matched
body must be the end of the string, or just before a single final newline. -/
def dollarAccepts (rest : List Char) : Bool := rest = [] || rest = ['\n']

/-- `re.match(r'^ghp_[a-zA-Z0-9]\x7b36\x7d$', s)` of
`GitOperations.validate_pat_format` (src/utils/auth.py line 15). -/
def reMatchClassic (s : List Char) : Bool :=
  s.take 4 = "ghp_".toList &&
  ((s.drop 4).take 36).length = 36 &&
  ((s.drop 4).take 36).all isAsciiAlnum &&
  dollarAccepts (s.drop 40)

/-- `re.match(r'^github_pat_[a-zA-Z0-9_]\x7b82\x7d$', s)` (src/utils/auth.py
line 16). -/
def reMatchFine (s : List Char) : Bool :=
  s.take 11 = "github_pat_".toList &&
  ((s.drop 11).take 82).length = 82 &&
  ((s.drop 11).take 82).all isAsciiAlnumU &&
  dollarAccepts (s.drop 93)

/-- `GitHubAuth.validate_pat_format` (src/utils/auth.py lines 11-23): true iff
either regex matches; the body raises no exception on strings, so the
`except` fallback to False is dead and the function is pure. -/
def validate_pat_format (token : List Char) : Bool :=
  reMatchClassic token || reMatchFine token

/-- Spec-side shape (claim C6 wording): the classic shape is the literal
prefix `ghp_` followed by exactly 36 alphanumeric characters. -/
def specClassicExact (s : List Char) : Bool :=
  s.take 4 = "ghp_".toList && (s.drop 4).length = 36 && (s.drop 4).all isAsciiAlnum

/-- Spec-side shape (claim C6 wording): the fine-grained shape is the literal
prefix `github_pat_` followed by exactly 82 characters from
alphanumeric-plus-underscore. -/
def specFineExact (s : List Char) : Bool :=
  s.take 11 = "github_pat_".toList && (s.drop 11).length = 82 && (s.drop 11).all isAsciiAlnumU

/-- Spec-side predicate for C6: the string exactly matches one of the two
token shapes. -/
def specShapeExact (s : List Char) : Bool := specClassicExact s || specFineExact s

/-- A Python exception value as seen by the handlers of
`GitHubAuth.authenticate` (src/utils/auth.py lines 57-72): either a
`GithubException` carrying an optional `data['message']` plus its `str`
rendering, or any other exception with its `str` rendering. -/
inductive PyExc where
  | gh (dataMsg : Option (List Char)) (str : List Char)
  | other (str : List Char)

/-- Environment of one call to `GitHubAuth.authenticate`: outcome of the
pre-identity steps (`Github(...)` construction and `get_user()`, which raise
only in the modelled exceptional case) and the outcomes of the lazy
attribute accesses `user.login` and `user.name` performed inside the inner
`try` (the first access is the network round-trip). -/
structure AuthEnv where
  preExc : Option PyExc
  loginResult : Except Unit (List Char)
  nameResult : Except Unit (Option (List Char))

/-- The mutable state of a `GitHubAuth` instance: `self.github_client`,
recorded as the token the stored client was built from (`None` initially). -/
structure AuthState where
  github_client : Option (List Char)

/-- Observable outcome of `GitHubAuth.authenticate`: the returned
`(success, message)` pair, whether `validate_pat_format` was consulted,
whether any network round-trip was attempted, and the post-call state. -/
structure AuthOutcome where
  ok : Bool
  msg : List Char
  formatChecked : Bool
  networkCalled : Bool
  state : AuthState

/-- `GitHubAuth.authenticate` (src/utils/auth.py lines 25-72). `not token`
is true in Python exactly for the empty string, so only the truly empty
token takes the first branch; the token is stripped afterwards. All failure
paths return before `self.github_client` is assigned. -/
def authenticate (st : AuthState) (env : AuthEnv) (token : List Char) : AuthOutcome :=
  if token = [] then
    ⟨false, "Token cannot be empty".toList, false, false, st⟩
  else
    let tok := pyStrip token
    if validate_pat_format tok = true then
      match env.preExc with
      | some (.gh dataMsg s) =>
          ⟨false, "GitHub authentication failed: ".toList ++ dataMsg.getD s, true, true, st⟩
      | some (.other s) =>
          if isSubL "rate limit".toList (toLowerL s) then
            ⟨false, "GitHub API rate limit exceeded. Please try again later.".toList,
              true, true, st⟩
          else if isSubL "network".toList (toLowerL s) ||
              isSubL "timeout".toList (toLowerL s) then
            ⟨false, "Network error. Please check your internet connection.".toList,
              true, true, st⟩
          else
            ⟨false, "Authentication error: ".toList ++ s, true, true, st⟩
      | none =>
          match env.loginResult with
          | .error _ =>
              ⟨false, "Token is valid but cannot access user information".toList,
                true, true, st⟩
          | .ok login =>
              match env.nameResult with
              | .error _ =>
                  ⟨false, "Token is valid but cannot access user information".toList,
                    true, true, st⟩
              | .ok _ =>
                  ⟨true, "Successfully authenticated as ".toList ++ login,
                    true, true, ⟨some tok⟩⟩
    else
      ⟨false, "Invalid GitHub PAT format".toList, true, false, st⟩

/-- An environment in which every remote access fails (no reachable remote). -/
def envAllFail : AuthEnv := ⟨none, Except.error (), Except.error ()⟩

/-- An environment in which `user.login` resolves but the `user.name` detail
access raises. -/
def envNameFails : AuthEnv := ⟨none, Except.ok "octocat".toList, Except.error ()⟩

/-- A syntactically valid classic token. -/
def validTok : List Char := "ghp_".toList ++ List.replicate 36 'a'

/-- The canonical repository record built by `GitHubManager.get_repositories`
(src/utils/github_manager.py lines 52-67). Dates are modelled as opaque
numbers. The `description` field is never `None` in a record: the code maps
a missing description to the sentinel string. -/
structure RepoInfo where
  name : List Char
  full_name : List Char
  description : List Char
  private_ : Bool
  clone_url : List Char
  ssh_url : List Char
  html_url : List Char
  language : Option (List Char)
  size : Nat
  stars : Nat
  forks : Nat
  updated_at : Nat
  created_at : Nat
  default_branch : List Char
deriving DecidableEq

/-- One raw repository object as yielded by the remote listing: every
attribute access can fail (a lazy fetch that errors, a missing field), which
Python surfaces as an exception. -/
structure RawRepo where
  name : Except Unit (List Char)
  full_name : Except Unit (List Char)
  description : Except Unit (Option (List Char))
  private_ : Except Unit Bool
  clone_url : Except Unit (List Char)
  ssh_url : Except Unit (List Char)
  html_url : Except Unit (List Char)
  language : Except Unit (Option (List Char))
  size : Except Unit Nat
  stars : Except Unit Nat
  forks : Except Unit Nat
  updated_at : Except Unit Nat
  created_at : Except Unit Nat
  default_branch : Except Unit (List Char)

/-- Building the `repo_info` dict for one repository
(src/utils/github_manager.py lines 52-67): the attribute accesses run in
source order and the first failing access raises; `repo.description or
"No description"` replaces a missing description by the sentinel. -/
def normalizeRepo (r : RawRepo) : Except Unit RepoInfo := do
  let name ← r.name
  let full_name ← r.full_name
  let descriptionOpt ← r.description
  let private_ ← r.private_
  let clone_url ← r.clone_url
  let ssh_url ← r.ssh_url
  let html_url ← r.html_url
  let language ← r.language
  let size ← r.size
  let stars ← r.stars
  let forks ← r.forks
  let updated_at ← r.updated_at
  let created_at ← r.created_at
  let default_branch ← r.default_branch
  pure ⟨name, full_name, (match descriptionOpt with
    | some d => if d = [] then "No description".toList else d
    | none => "No description".toList), private_, clone_url, ssh_url, html_url,
    language, size, stars, forks, updated_at, created_at, default_branch⟩

/-- The per-repository loop of `GitHubManager.get_repositories`
(src/utils/github_manager.py lines 49-71): a successfully normalized
repository is appended; on a normalization failure the handler logs
`f"Error processing repo {repo.name}: ..."`, which re-reads `repo.name` —
if that very access is what failed, the exception escapes the loop and the
whole listing aborts (the outer handler re-raises); otherwise the repository
is skipped and the loop continues. -/
def processRepos : List RawRepo → Except Unit (List RepoInfo)
  | [] => Except.ok []
  | r :: rs =>
    match normalizeRepo r with
    | Except.ok info => (processRepos rs).map (fun l => info :: l)
    | Except.error _ =>
      match r.name with
      | Except.ok _ => processRepos rs
      | Except.error _ => Except.error ()

/-- A raw repository with every field readable. -/
def goodRaw : RawRepo :=
  ⟨Except.ok "alpha".toList, Except.ok "u/alpha".toList, Except.ok (some "demo".toList),
    Except.ok false, Except.ok "c".toList, Except.ok "s".toList, Except.ok "h".toList,
    Except.ok (some "Python".toList), Except.ok 1, Except.ok 2, Except.ok 3,
    Except.ok 4, Except.ok 5, Except.ok "main".toList⟩

/-- A raw repository whose `name` attribute access raises. -/
def badNameRaw : RawRepo :=
  ⟨Except.error (), Except.ok "u/bad".toList, Except.ok (some "demo".toList),
    Except.ok false, Except.ok "c".toList, Except.ok "s".toList, Except.ok "h".toList,
    Except.ok (some "Python".toList), Except.ok 1, Except.ok 2, Except.ok 3,
    Except.ok 4, Except.ok 5, Except.ok "main".toList⟩

/-- A raw repository whose `size` attribute access raises but whose `name`
is readable. -/
def badSizeRaw : RawRepo :=
  ⟨Except.ok "beta".toList, Except.ok "u/beta".toList, Except.ok (some "demo".toList),
    Except.ok false, Except.ok "c".toList, Except.ok "s".toList, Except.ok "h".toList,
    Except.ok (some "Python".toList), Except.error (), Except.ok 2, Except.ok 3,
    Except.ok 4, Except.ok 5, Except.ok "main".toList⟩

/-- The language clause of the filter in `GitHubManager.search_repositories`
(src/utils/github_manager.py line 151): Python evaluates
`repo['language'] and query in repo['language'].lower()`, so a `None` or
empty-string language is falsy and never matched. -/
def langTruthyMatch (q : List Char) : Option (List Char) → Bool
  | none => false
  | some l => (!l.isEmpty) && isSubL q (toLowerL l)

/-- `GitHubManager.search_repositories` (src/utils/github_manager.py lines
139-159): the empty query returns the input list; otherwise the query is
lowercased once and the list is filtered by case-insensitive substring
match on name, description, and (when truthy) language. The function body
raises no exception on these pure values, so the `except` fallback is dead. -/
def search_repositories (query : List Char) (repo_list : List RepoInfo) : List RepoInfo :=
  if query = [] then repo_list
  else
    let q := toLowerL query
    repo_list.filter (fun repo =>
      isSubL q (toLowerL repo.name) || isSubL q (toLowerL repo.description) ||
        langTruthyMatch q repo.language)

/-- Spec-side match predicate for C7, from the claim wording: the lowercased
query occurs as a substring of the record name, of its description, or —
only when the language field is present — of its language, all compared
case-insensitively. -/
def searchSpecMatch (query : List Char) (r : RepoInfo) : Bool :=
  isSubL (toLowerL query) (toLowerL r.name) ||
    isSubL (toLowerL query) (toLowerL r.description) ||
    (match r.language with
     | none => false
     | some l => isSubL (toLowerL query) (toLowerL l))

/-- The single-quote character used by the f-string in the clone conflict
message. -/
def sglQuote : Char := Char.ofNat 39

/-- Environment of one `GitOperations.clone_repository` call
(src/utils/git_operations.py lines 14-53): outcome of
`os.makedirs(local_path, exist_ok=True)`, the `os.path.exists(repo_path)`
and `os.listdir(repo_path)` checks, and the outcome of the underlying
`git.Repo.clone_from` primitive (error flagged as `GitCommandError` or not,
with its `str` rendering). -/
structure CloneEnv where
  makedirsOk : Except (List Char) Unit
  repoPathExists : Bool
  repoPathNonempty : Bool
  cloneResult : Except (Bool × List Char) Unit

/-- Observable outcome of `clone_repository`: the returned path or raised
error message, and whether `git.Repo.clone_from` was invoked (the network
call of the clone step). -/
structure CloneOutcome where
  result : Except (List Char) (List Char)
  cloneInvoked : Bool

/-- `GitOperations.clone_repository` (src/utils/git_operations.py lines
14-53): ensures the parent, joins the destination path, raises a
destination-conflict `Exception` when the destination exists and is
non-empty (re-raised by the generic handler with the
`Error cloning repository: ` prefix), and only otherwise invokes
`git.Repo.clone_from`; a `GitCommandError` from the clone is re-raised with
the `Git command failed: ` prefix, any other error with the generic prefix. -/
def clone_repository (env : CloneEnv) (local_path repo_name : List Char) : CloneOutcome :=
  match env.makedirsOk with
  | Except.error e =>
      ⟨Except.error ("Error cloning repository: ".toList ++ e), false⟩
  | Except.ok _ =>
      let repo_path := local_path ++ ['/'] ++ repo_name
      if env.repoPathExists && env.repoPathNonempty then
        ⟨Except.error ("Error cloning repository: Directory ".toList ++ [sglQuote] ++ repo_path
          ++ [sglQuote] ++ " already exists and is not empty".toList), false⟩
      else
        match env.cloneResult with
        | Except.ok _ => ⟨Except.ok repo_path, true⟩
        | Except.error (isGit, m) =>
            ⟨Except.error ((if isGit then "Git command failed: ".toList
              else "Error cloning repository: ".toList) ++ m), true⟩

/-- The download-error classification of the presentation layer
(src/pages/01_Repository_List.py lines 233-242). -/
inductive DownloadErrorClass where
  | destinationConflict
  | permissionDenied
  | networkError
  | other
deriving DecidableEq

/-- Case-insensitive substring classification of a download failure message
(src/pages/01_Repository_List.py lines 233-242). -/
def classify_download_error (msg : List Char) : DownloadErrorClass :=
  if isSubL "already exists".toList (toLowerL msg) then DownloadErrorClass.destinationConflict
  else if isSubL "permission".toList (toLowerL msg) then DownloadErrorClass.permissionDenied
  else if isSubL "network".toList (toLowerL msg) || isSubL "timeout".toList (toLowerL msg) then
    DownloadErrorClass.networkError
  else DownloadErrorClass.other

/-- Environment of one `GitOperations.initialize_and_push` call
(src/utils/git_operations.py lines 63-98): outcomes of `git.Repo.init`,
`repo.git.add(A=True)`, the post-staging working-tree state
(`repo.is_dirty()` and `repo.untracked_files`), and the outcomes of
`repo.index.commit`, `repo.create_remote`, and `origin.push`. Errors carry
the `str` of the raised `GitCommandError`. -/
structure PushEnv where
  initResult : Except (List Char) Unit
  addResult : Except (List Char) Unit
  isDirty : Bool
  untrackedFiles : List (List Char)
  commitResult : Except (List Char) Unit
  remoteResult : Except (List Char) Unit
  pushResult : Except (List Char) Unit

/-- Side effects performed by `initialize_and_push` before it returned or
raised: the commit message committed, the URL registered as remote
`origin` of the freshly initialized repository (its single remote), and the
refspec pushed. -/
structure PushEffects where
  committed : Option (List Char)
  remoteAdded : Option (List Char)
  pushedRefspec : Option (List Char)
deriving DecidableEq

/-- No side effect performed. -/
def noPushEffects : PushEffects := ⟨none, none, none⟩

/-- `GitOperations.initialize_and_push` (src/utils/git_operations.py lines
63-98): init, stage all files, and — only when `repo.is_dirty() or
repo.untracked_files` is truthy — commit with the given message, register
the remote, push `HEAD:main`, and return True; with no change it returns
False without committing; every `GitCommandError` is re-raised with the
`Git command failed: ` prefix. -/
def initialize_and_push (env : PushEnv) (repo_url commit_message : List Char) :
    Except (List Char) Bool × PushEffects :=
  match env.initResult with
  | Except.error e => (Except.error ("Git command failed: ".toList ++ e), noPushEffects)
  | Except.ok _ =>
  match env.addResult with
  | Except.error e => (Except.error ("Git command failed: ".toList ++ e), noPushEffects)
  | Except.ok _ =>
    if env.isDirty || !env.untrackedFiles.isEmpty then
      match env.commitResult with
      | Except.error e => (Except.error ("Git command failed: ".toList ++ e), noPushEffects)
      | Except.ok _ =>
      match env.remoteResult with
      | Except.error e =>
          (Except.error ("Git command failed: ".toList ++ e),
            ⟨some commit_message, none, none⟩)
      | Except.ok _ =>
      match env.pushResult with
      | Except.error e =>
          (Except.error ("Git command failed: ".toList ++ e),
            ⟨some commit_message, some repo_url, none⟩)
      | Except.ok _ =>
          (Except.ok true, ⟨some commit_message, some repo_url, some "HEAD:main".toList⟩)
    else
      (Except.ok false, noPushEffects)

/-- One file visited by the `os.walk` loop of
`GitOperations.get_directory_size` (src/utils/git_operations.py lines
125-137): its size and whether `os.path.exists` still holds when the walk
reaches it (false for an entry that vanished mid-walk). -/
structure FileEnt where
  size : Nat
  present : Bool
deriving DecidableEq

/-- The step of the accumulation `total_size += os.path.getsize(filepath)`
guarded by the `os.path.exists(filepath)` check. -/
def sizeStep (acc : Nat) (f : FileEnt) : Nat :=
  if f.present then acc + f.size else acc

/-- `GitOperations.get_directory_size` (src/utils/git_operations.py lines
125-137): the walk either yields its file entries in order, or fails
altogether (the `except` branch), in which case 0 is returned instead of an
exception; the function is total and never raises. -/
def get_directory_size (walk : Except Unit (List FileEnt)) : Nat :=
  match walk with
  | Except.error _ => 0
  | Except.ok files => files.foldl sizeStep 0

/-- Environment of one `GitOperations.cleanup_temp_dirs` call
(src/utils/git_operations.py lines 139-148): whether each tracked path
exists, and whether `shutil.rmtree` on it succeeds (failure is caught and
logged by the per-iteration handler). -/
structure CleanupEnv where
  pathExists : List Char → Bool
  removeOk : List Char → Bool

/-- The `for temp_dir in self.temp_dirs` loop of `cleanup_temp_dirs`: for
each tracked path that exists, one removal attempt is made and its outcome
recorded; a failing attempt is logged and the loop continues with the next
path. -/
def cleanupLoop (env : CleanupEnv) : List (List Char) → List (List Char × Bool)
  | [] => []
  | d :: ds =>
    if env.pathExists d then (d, env.removeOk d) :: cleanupLoop env ds
    else cleanupLoop env ds

/-- `GitOperations.cleanup_temp_dirs` (src/utils/git_operations.py lines
139-148): runs the removal loop over `self.temp_dirs`, then unconditionally
executes `self.temp_dirs.clear()`; returns the attempts made and the new
value of `self.temp_dirs`. -/
def cleanup_temp_dirs (env : CleanupEnv) (temp_dirs : List (List Char)) :
    List (List Char × Bool) × List (List Char) :=
  (cleanupLoop env temp_dirs, [])

lemma min_eq_imp_le {a b : Nat} (h : min a b = a) : a ≤ b := by
  have hb := Nat.min_le_right a b
  rw [h] at hb
  exact hb

lemma reMatchClassic_iff (s : List Char) :
    reMatchClassic s = true ↔
      specClassicExact s = true ∨ ∃ t, s = t ++ ['\n'] ∧ specClassicExact t = true := by
  unfold reMatchClassic specClassicExact dollarAccepts
  simp only [Bool.and_eq_true, Bool.or_eq_true, decide_eq_true_eq, List.length_take,
    List.length_drop]
  constructor
  · rintro ⟨⟨⟨h1, h2⟩, h3⟩, h4⟩
    have h36 : 36 ≤ s.length - 4 := min_eq_imp_le h2
    cases h4 with
    | inl h4 =>
      have hle : s.length ≤ 40 := List.drop_eq_nil_iff.mp h4
      have hL : (s.drop 4).length = 36 := by
        rw [List.length_drop]
        omega
      have ht : (s.drop 4).take 36 = s.drop 4 := by
        rw [← hL]
        exact List.take_length _
      refine Or.inl ⟨⟨h1, by rw [List.length_drop] at hL; exact hL⟩, ?_⟩
      rw [← ht]
      exact h3
    | inr h4 =>
      refine Or.inr ⟨s.take 40, ?_, ?_, ?_⟩
      · conv_lhs => rw [← List.take_append_drop 40 s]
        rw [h4]
      · have h41 : s.length = 41 := by
          have hlen := congrArg List.length h4
          simp only [List.length_drop, List.length_cons, List.length_nil] at hlen
          omega
        constructor
        · rw [List.take_take]
          exact h1
        · rw [List.length_take]
          omega
      · rw [List.drop_take]
        exact h3
  · rintro (⟨⟨h1, h2⟩, h3⟩ | ⟨t, rfl, ⟨h1, h2⟩, h3⟩)
    · have hL : (s.drop 4).length = 36 := by
        rw [List.length_drop]
        exact h2
      have ht : (s.drop 4).take 36 = s.drop 4 := by
        rw [← hL]
        exact List.take_length _
      refine ⟨⟨⟨h1, ?_⟩, ?_⟩, Or.inl ?_⟩
      · omega
      · rw [ht]
        exact h3
      · have hd : s.drop 40 = (s.drop 4).drop 36 := by
          rw [List.drop_drop]
        rw [hd]
        exact List.drop_eq_nil_of_le (by rw [List.length_drop, h2])
    · have htl4 : 4 ≤ t.length := by
        have := congrArg List.length h1
        simp only [List.length_take] at this
        have : min 4 t.length = 4 := by
          rw [this]
          rfl
        exact min_eq_imp_le this
      have htl : t.length = 40 := by omega
      have hta : (t ++ ['\n']).take 4 = t.take 4 :=
        List.take_append_of_le_length (by omega)
      have hda : (t ++ ['\n']).drop 4 = t.drop 4 ++ ['\n'] :=
        List.drop_append_of_le_length (by omega)
      have hdl : (t.drop 4).length = 36 := by
        rw [List.length_drop]
        omega
      have htk : (t.drop 4 ++ ['\n']).take 36 = t.drop 4 := by
        rw [List.take_append_of_le_length (by omega), ← hdl]
        exact List.take_length _
      refine ⟨⟨⟨?_, ?_⟩, ?_⟩, Or.inr ?_⟩
      · rw [hta]
        exact h1
      · rw [List.length_append]
        simp only [List.length_cons, List.length_nil]
        omega
      · rw [hda, htk]
        exact h3
      · have : (t ++ ['\n']).drop 40 = t.drop 40 ++ ['\n'] :=
          List.drop_append_of_le_length (by omega)
        rw [this, List.drop_eq_nil_of_le (by omega)]
        rfl

lemma reMatchFine_iff (s : List Char) :
    reMatchFine s = true ↔
      specFineExact s = true ∨ ∃ t, s = t ++ ['\n'] ∧ specFineExact t = true := by
  unfold reMatchFine specFineExact dollarAccepts
  simp only [Bool.and_eq_true, Bool.or_eq_true, decide_eq_true_eq, List.length_take,
    List.length_drop]
  constructor
  · rintro ⟨⟨⟨h1, h2⟩, h3⟩, h4⟩
    have h82 : 82 ≤ s.length - 11 := min_eq_imp_le h2
    cases h4 with
    | inl h4 =>
      have hle : s.length ≤ 93 := List.drop_eq_nil_iff.mp h4
      have hL : (s.drop 11).length = 82 := by
        rw [List.length_drop]
        omega
      have ht : (s.drop 11).take 82 = s.drop 11 := by
        rw [← hL]
        exact List.take_length _
      refine Or.inl ⟨⟨h1, by rw [List.length_drop] at hL; exact hL⟩, ?_⟩
      rw [← ht]
      exact h3
    | inr h4 =>
      refine Or.inr ⟨s.take 93, ?_, ?_, ?_⟩
      · conv_lhs => rw [← List.take_append_drop 93 s]
        rw [h4]
      · have h94 : s.length = 94 := by
          have hlen := congrArg List.length h4
          simp only [List.length_drop, List.length_cons, List.length_nil] at hlen
          omega
        constructor
        · rw [List.take_take]
          exact h1
        · rw [List.length_take]
          omega
      · rw [List.drop_take]
        exact h3
  · rintro (⟨⟨h1, h2⟩, h3⟩ | ⟨t, rfl, ⟨h1, h2⟩, h3⟩)
    · have hL : (s.drop 11).length = 82 := by
        rw [List.length_drop]
        exact h2
      have ht : (s.drop 11).take 82 = s.drop 11 := by
        rw [← hL]
        exact List.take_length _
      refine ⟨⟨⟨h1, ?_⟩, ?_⟩, Or.inl ?_⟩
      · omega
      · rw [ht]
        exact h3
      · have hd : s.drop 93 = (s.drop 11).drop 82 := by
          rw [List.drop_drop]
        rw [hd]
        exact List.drop_eq_nil_of_le (by rw [List.length_drop, h2])
    · have htl11 : 11 ≤ t.length := by
        have hlen := congrArg List.length h1
        simp only [List.length_take] at hlen
        have hm : min 11 t.length = 11 := by
          rw [hlen]
          rfl
        exact min_eq_imp_le hm
      have htl : t.length = 93 := by omega
      have hta : (t ++ ['\n']).take 11 = t.take 11 :=
        List.take_append_of_le_length (by omega)
      have hda : (t ++ ['\n']).drop 11 = t.drop 11 ++ ['\n'] :=
        List.drop_append_of_le_length (by omega)
      have hdl : (t.drop 11).length = 82 := by
        rw [List.length_drop]
        omega
      have htk : (t.drop 11 ++ ['\n']).take 82 = t.drop 11 := by
        rw [List.take_append_of_le_length (by omega), ← hdl]
        exact List.take_length _
      refine ⟨⟨⟨?_, ?_⟩, ?_⟩, Or.inr ?_⟩
      · rw [hta]
        exact h1
      · rw [List.length_append]
        simp only [List.length_cons, List.length_nil]
        omega
      · rw [hda, htk]
        exact h3
      · have hd : (t ++ ['\n']).drop 93 = t.drop 93 ++ ['\n'] :=
          List.drop_append_of_le_length (by omega)
        rw [hd, List.drop_eq_nil_of_le (by omega)]
        rfl

/-- C6 (counterexample): the claim states that `validate_pat_format` returns
true only on exact shape matches and that a string one character longer than a
shape returns false. The concrete string `ghp_` + 36 `a`s + newline is one
character longer than the classic shape and contains a newline, a character
outside the allowed class, yet `validate_pat_format` returns true (Python
`$` also matches just before a final newline), while the exact-shape
predicate taken from the claim wording is false on it. -/
theorem C6_counterexample_trailing_newline :
    validate_pat_format ("ghp_".toList ++ List.replicate 36 'a' ++ ['\n']) = true ∧
      specShapeExact ("ghp_".toList ++ List.replicate 36 'a' ++ ['\n']) = false := by
  constructor
  · decide
  · decide

/-- C6 (amended): for every string, `validate_pat_format` returns true if and
only if the string exactly matches one of the two token shapes (classic:
`ghp_` + exactly 36 alphanumerics; fine-grained: `github_pat_` + exactly 82
alphanumeric-or-underscore characters) or is such an exact match with one
single trailing newline appended; the function is total (never raises). -/
theorem C6_validate_pat_format_amended (s : List Char) :
    validate_pat_format s = true ↔
      (specShapeExact s = true ∨ ∃ t, s = t ++ ['\n'] ∧ specShapeExact t = true) := by
  unfold validate_pat_format specShapeExact
  rw [Bool.or_eq_true, reMatchClassic_iff, reMatchFine_iff]
  constructor
  · rintro ((hc | ⟨t, rfl, ht⟩) | (hf | ⟨t, rfl, ht⟩))
    · exact Or.inl (by rw [Bool.or_eq_true]; exact Or.inl hc)
    · exact Or.inr ⟨t, rfl, by rw [Bool.or_eq_true]; exact Or.inl ht⟩
    · exact Or.inl (by rw [Bool.or_eq_true]; exact Or.inr hf)
    · exact Or.inr ⟨t, rfl, by rw [Bool.or_eq_true]; exact Or.inr ht⟩
  · rintro (hs | ⟨t, rfl, ht⟩)
    · rw [Bool.or_eq_true] at hs
      cases hs with
      | inl hc => exact Or.inl (Or.inl hc)
      | inr hf => exact Or.inr (Or.inl hf)
    · rw [Bool.or_eq_true] at ht
      cases ht with
      | inl hc => exact Or.inl (Or.inr ⟨t, rfl, hc⟩)
      | inr hf => exact Or.inr (Or.inr ⟨t, rfl, hf⟩)

lemma pyStrip_eq_nil_of_all_ws {token : List Char} (h : ∀ c ∈ token, isPyWs c = true) :
    pyStrip token = [] := by
  unfold pyStrip
  rw [List.dropWhile_eq_nil_iff.mpr h]
  rfl

lemma validate_pat_format_nil : validate_pat_format [] = false := by decide

/-- C4 (counterexample): the claim states that every token consisting only of
whitespace is rejected as an empty-token error without consulting
`validate_pat_format`. For the one-space token, the Python guard `not token`
is false (the string is non-empty), so the code strips it to the empty string,
does consult `validate_pat_format`, and rejects it with the invalid-format
message instead of the empty-token message. -/
theorem C4_counterexample_whitespace_token :
    (authenticate ⟨none⟩ envAllFail [' ']).formatChecked = true ∧
      (authenticate ⟨none⟩ envAllFail [' ']).msg ≠ "Token cannot be empty".toList := by
  constructor
  · decide
  · decide

/-- C4 (amended): for every token that is empty or consists only of
whitespace, `authenticate` fails without making any network call; the truly
empty token is rejected as an empty-token error without consulting
`validate_pat_format`, while a non-empty all-whitespace token is stripped to
the empty string and rejected by `validate_pat_format` with the
invalid-format error. -/
theorem C4_blank_token_rejected (st : AuthState) (env : AuthEnv) (token : List Char)
    (hws : ∀ c ∈ token, isPyWs c = true) :
    (authenticate st env token).ok = false ∧
      (authenticate st env token).networkCalled = false ∧
      (token = [] →
        (authenticate st env token).msg = "Token cannot be empty".toList ∧
        (authenticate st env token).formatChecked = false) ∧
      (token ≠ [] →
        (authenticate st env token).msg = "Invalid GitHub PAT format".toList ∧
        (authenticate st env token).formatChecked = true) := by
  by_cases hnil : token = []
  · subst hnil
    simp [authenticate]
  · have hstrip : pyStrip token = [] := pyStrip_eq_nil_of_all_ws hws
    simp [authenticate, hnil, hstrip, validate_pat_format_nil]

/-- C4 witness: the amended theorem applied to the concrete one-space token. -/
theorem C4_blank_token_rejected_witness :
    (authenticate ⟨none⟩ envAllFail [' ']).ok = false ∧
      (authenticate ⟨none⟩ envAllFail [' ']).networkCalled = false := by
  have h := C4_blank_token_rejected ⟨none⟩ envAllFail [' '] (by decide)
  exact ⟨h.1, h.2.1⟩

/-- C5: `authenticate` is atomic with respect to the stored session: whenever
the returned success flag is false — empty token, invalid format, remote
rejection, rate limit, network error, unexpected error, or inaccessible user
details — the stored client is exactly the one stored before the call; and
on success the stored client is replaced by one built from the stripped
token. -/
theorem C5_authenticate_atomic (st : AuthState) (env : AuthEnv) (token : List Char) :
    ((authenticate st env token).ok = false → (authenticate st env token).state = st) ∧
      ((authenticate st env token).ok = true →
        (authenticate st env token).state = ⟨some (pyStrip token)⟩) := by
  unfold authenticate
  repeat' split
  all_goals try simp
  all_goals (split <;> simp)

/-- C5 witness: a failed first authentication (empty token, unreachable
remote) leaves the session unset. -/
theorem C5_authenticate_atomic_witness :
    (authenticate ⟨none⟩ envAllFail []).ok = false ∧
      (authenticate ⟨none⟩ envAllFail []).state = ⟨none⟩ :=
  ⟨by decide, (C5_authenticate_atomic ⟨none⟩ envAllFail []).1 (by decide)⟩

/-- C3 (counterexample): the claim states that when the identity lookup
resolves `login` but a detail field (the user name) is unavailable,
`authenticate` still establishes the session and treats the caller as
authenticated. In the code both accesses sit in one `try` block, so for a
valid token whose `user.login` resolves to `octocat` while `user.name`
raises, `authenticate` returns failure and the session stays unset. -/
theorem C3_counterexample_details_unavailable :
    (authenticate ⟨none⟩ envNameFails validTok).ok = false ∧
      (authenticate ⟨none⟩ envNameFails validTok).state.github_client = none := by
  constructor
  · decide
  · decide

/-- C3 (amended): for every token for which the identity lookup resolves
`login` but the user-name detail access fails, `authenticate` reports the
attempt as a failure with the message `Token is valid but cannot access user
information`, and the session is not established (the stored client is left
unchanged). -/
theorem C3_details_unavailable_fails (st : AuthState) (env : AuthEnv) (token : List Char)
    (login : List Char) (hnil : token ≠ [])
    (hfmt : validate_pat_format (pyStrip token) = true)
    (hpre : env.preExc = none) (hlogin : env.loginResult = Except.ok login)
    (hname : env.nameResult = Except.error ()) :
    (authenticate st env token).ok = false ∧
      (authenticate st env token).msg =
        "Token is valid but cannot access user information".toList ∧
      (authenticate st env token).state = st := by
  simp [authenticate, hnil, hfmt, hpre, hlogin, hname]

/-- C3 witness: the amended theorem applied to a concrete valid token whose
login resolves while the name access raises. -/
theorem C3_details_unavailable_fails_witness :
    (authenticate ⟨none⟩ envNameFails validTok).ok = false ∧
      (authenticate ⟨none⟩ envNameFails validTok).state = ⟨none⟩ := by
  have h := C3_details_unavailable_fails ⟨none⟩ envNameFails validTok "octocat".toList
    (by decide) (by decide) rfl rfl rfl
  exact ⟨h.1, h.2.2⟩

/-- C8: the claim states that a normalization failure for any single
repository only drops that repository and never aborts the whole listing.
The exception handler logs `f"Error processing repo {repo.name}: ..."`,
re-reading `repo.name`; when the failing field is `name` itself, the handler
re-raises and the whole listing aborts — even though the other repository in
the batch normalizes successfully. Failures of any other field are indeed
skipped, keeping the rest of the batch (second conjunct). -/
theorem C8_name_failure_aborts_listing :
    processRepos [badNameRaw, goodRaw] = Except.error () ∧
      (∃ l, processRepos [badSizeRaw, goodRaw] = Except.ok l ∧ l.length = 1) :=
  ⟨rfl, ⟨_, rfl, rfl⟩⟩

lemma isSubL_nil_left (h : List Char) : isSubL [] h = true := by
  simp [isSubL]

lemma isSubL_nil_right {n : List Char} (hn : n ≠ []) : isSubL n [] = false := by
  simp [isSubL, List.infix_nil, hn]

lemma toLowerL_ne_nil {q : List Char} (hq : q ≠ []) : toLowerL q ≠ [] := by
  simp [toLowerL, hq]

lemma searchPred_eq (query : List Char) (hq : query ≠ []) (r : RepoInfo) :
    (isSubL (toLowerL query) (toLowerL r.name) ||
        isSubL (toLowerL query) (toLowerL r.description) ||
        langTruthyMatch (toLowerL query) r.language) = searchSpecMatch query r := by
  unfold searchSpecMatch langTruthyMatch
  cases hl : r.language with
  | none => rfl
  | some l =>
    cases l with
    | nil =>
      have h2 : isSubL (toLowerL query) (toLowerL []) = false := by
        rw [show toLowerL ([] : List Char) = [] from rfl]
        exact isSubL_nil_right (toLowerL_ne_nil hq)
      simp [h2]
    | cons c cs => simp [List.isEmpty]

/-- C7: for every query and record list, `search_repositories` returns
exactly the records matching the claim predicate (case-insensitive substring
of name, description, or present language), in input order: the result
equals the input filtered by the predicate, it is a sublist of the input
(order preserved), a record is in the output iff it is in the input and
matches, and the empty query returns the input unchanged. -/
theorem C7_search_exact_filter (query : List Char) (rs : List RepoInfo) :
    search_repositories query rs = rs.filter (searchSpecMatch query) ∧
      List.Sublist (search_repositories query rs) rs ∧
      (∀ r, r ∈ search_repositories query rs ↔ r ∈ rs ∧ searchSpecMatch query r = true) ∧
      search_repositories [] rs = rs := by
  have hmain : search_repositories query rs = rs.filter (searchSpecMatch query) := by
    unfold search_repositories
    by_cases hq : query = []
    · subst hq
      simp only [if_pos rfl]
      refine (List.filter_eq_self.mpr ?_).symm
      intro r _
      unfold searchSpecMatch
      rw [show toLowerL ([] : List Char) = [] from rfl, isSubL_nil_left]
      simp
    · simp only [if_neg hq]
      exact List.filter_congr (fun r _ => searchPred_eq query hq r)
  refine ⟨hmain, ?_, ?_, ?_⟩
  · rw [hmain]
    exact List.filter_sublist rs
  · intro r
    rw [hmain]
    simp [List.mem_filter]
  · simp [search_repositories]

lemma isSubL_iff {n h : List Char} : isSubL n h = true ↔ n <:+: h := by
  simp [isSubL]

lemma infix_append_left {α : Type} {t B : List α} (A : List α) (h : t <:+: B) :
    t <:+: A ++ B := by
  obtain ⟨u, v, rfl⟩ := h
  exact ⟨A ++ u, v, by simp⟩

lemma toLowerL_append (a b : List Char) : toLowerL (a ++ b) = toLowerL a ++ toLowerL b :=
  List.map_append Char.toLower a b

/-- C2: for every clone request whose destination directory exists and is
non-empty, `clone_repository` raises an error whose message contains
`already exists` (classified as a destination conflict by the presentation
layer) and never invokes the underlying clone primitive; when the
destination is missing or exists-but-empty, the clone primitive is
invoked. -/
theorem C2_clone_destination_conflict (env : CloneEnv) (lp rn : List Char)
    (hmk : env.makedirsOk = Except.ok ()) :
    (env.repoPathExists = true → env.repoPathNonempty = true →
      (clone_repository env lp rn).cloneInvoked = false ∧
      ∃ m, (clone_repository env lp rn).result = Except.error m ∧
        isSubL "already exists".toList (toLowerL m) = true ∧
        classify_download_error m = DownloadErrorClass.destinationConflict) ∧
    (env.repoPathNonempty = false → (clone_repository env lp rn).cloneInvoked = true) := by
  constructor
  · intro hex hne
    have hcond : (env.repoPathExists && env.repoPathNonempty) = true := by
      rw [hex, hne]
      rfl
    have hres : clone_repository env lp rn =
        ⟨Except.error ("Error cloning repository: Directory ".toList ++ [sglQuote]
          ++ (lp ++ ['/'] ++ rn) ++ [sglQuote] ++ " already exists and is not empty".toList),
          false⟩ := by
      unfold clone_repository
      rw [hmk]
      simp only [hcond, if_pos]
    have hsub : isSubL "already exists".toList
        (toLowerL ("Error cloning repository: Directory ".toList ++ [sglQuote]
          ++ (lp ++ ['/'] ++ rn) ++ [sglQuote] ++ " already exists and is not empty".toList)) =
        true := by
      rw [isSubL_iff]
      rw [toLowerL_append]
      apply infix_append_left
      decide
    refine ⟨by rw [hres], ⟨_, by rw [hres], hsub, ?_⟩⟩
    unfold classify_download_error
    rw [hsub]
    rfl
  · intro hne
    unfold clone_repository
    rw [hmk]
    simp only [hne, Bool.and_false, if_neg]
    cases env.cloneResult with
    | ok u => rfl
    | error e =>
      cases e with
      | mk isGit m => rfl

/-- C2 witness: the conflict branch and the empty-destination branch at
concrete inputs. -/
theorem C2_clone_destination_conflict_witness :
    (clone_repository ⟨Except.ok (), true, true, Except.ok ()⟩ "/tmp".toList
        "repo".toList).cloneInvoked = false ∧
      (clone_repository ⟨Except.ok (), true, false, Except.ok ()⟩ "/tmp".toList
        "repo".toList).cloneInvoked = true := by
  constructor
  · exact ((C2_clone_destination_conflict ⟨Except.ok (), true, true, Except.ok ()⟩
      "/tmp".toList "repo".toList rfl).1 rfl rfl).1
  · exact (C2_clone_destination_conflict ⟨Except.ok (), true, false, Except.ok ()⟩
      "/tmp".toList "repo".toList rfl).2 rfl

/-- C1: given that init and staging succeed, `initialize_and_push` returns
False exactly when the staged working tree has no change (not dirty and no
untracked file) — and then performs no commit, remote registration, or push
(a no-op, not an error); and whenever there is a change and the
commit/remote/push primitives succeed, it commits the given message,
registers the remote URL, pushes `HEAD:main`, and returns True. -/
theorem C1_init_and_push_noop_vs_push (env : PushEnv) (repo_url commit_message : List Char)
    (hinit : env.initResult = Except.ok ()) (hadd : env.addResult = Except.ok ()) :
    ((initialize_and_push env repo_url commit_message).1 = Except.ok false ↔
      (env.isDirty = false ∧ env.untrackedFiles = [])) ∧
    ((initialize_and_push env repo_url commit_message).1 = Except.ok false →
      (initialize_and_push env repo_url commit_message).2 = noPushEffects) ∧
    ((env.isDirty = true ∨ env.untrackedFiles ≠ []) →
      env.commitResult = Except.ok () → env.remoteResult = Except.ok () →
      env.pushResult = Except.ok () →
      initialize_and_push env repo_url commit_message =
        (Except.ok true, ⟨some commit_message, some repo_url, some "HEAD:main".toList⟩)) := by
  unfold initialize_and_push
  rw [hinit, hadd]
  by_cases hc : (env.isDirty || !env.untrackedFiles.isEmpty) = true
  · simp only [hc, if_pos]
    have hchg : ¬(env.isDirty = false ∧ env.untrackedFiles = []) := by
      rw [Bool.or_eq_true, Bool.not_eq_true', List.isEmpty_eq_false] at hc
      rintro ⟨hd, hu⟩
      cases hc with
      | inl h => rw [hd] at h; exact Bool.false_ne_true h
      | inr h => exact h hu
    refine ⟨?_, ?_, ?_⟩
    · constructor
      · intro hres
        exfalso
        rcases henv1 : env.commitResult with e | u <;> rw [henv1] at hres
        · simp at hres
        · rcases henv2 : env.remoteResult with e | u <;> rw [henv2] at hres
          · simp at hres
          · rcases henv3 : env.pushResult with e | u <;> rw [henv3] at hres
            · simp at hres
            · simp at hres
      · intro h
        exact absurd h hchg
    · intro hres
      exfalso
      rcases henv1 : env.commitResult with e | u <;> rw [henv1] at hres
      · simp at hres
      · rcases henv2 : env.remoteResult with e | u <;> rw [henv2] at hres
        · simp at hres
        · rcases henv3 : env.pushResult with e | u <;> rw [henv3] at hres
          · simp at hres
          · simp at hres
    · intro _ hcm hrm hps
      rw [hcm, hrm, hps]
  · have hc' : (env.isDirty || !env.untrackedFiles.isEmpty) = false := by
      cases h : (env.isDirty || !env.untrackedFiles.isEmpty) with
      | false => rfl
      | true => exact absurd h hc
    have hparts := Bool.or_eq_false_iff.mp hc'
    have hd : env.isDirty = false := hparts.1
    have hu : env.untrackedFiles = [] := by
      have h2 := hparts.2
      rw [Bool.not_eq_false'] at h2
      exact List.isEmpty_eq_true.mp h2
    simp only [hc', Bool.false_eq_true, if_false]
    refine ⟨?_, ?_, ?_⟩
    · simp [hd, hu]
    · intro _
      trivial
    · intro hchg
      exfalso
      cases hchg with
      | inl h => rw [hd] at h; exact Bool.false_ne_true h
      | inr h => exact h hu

/-- C1 witness: the no-change case returns False with no effects, and the
one-new-file case commits, registers the remote, pushes `HEAD:main`, and
returns True. -/
theorem C1_init_and_push_noop_vs_push_witness :
    (initialize_and_push
        ⟨Except.ok (), Except.ok (), false, [], Except.ok (), Except.ok (), Except.ok ()⟩
        "u".toList "m".toList).1 = Except.ok false ∧
      initialize_and_push
        ⟨Except.ok (), Except.ok (), false, ["f".toList], Except.ok (), Except.ok (),
          Except.ok ()⟩ "u".toList "m".toList =
        (Except.ok true, ⟨some "m".toList, some "u".toList, some "HEAD:main".toList⟩) := by
  constructor
  · exact (C1_init_and_push_noop_vs_push
      ⟨Except.ok (), Except.ok (), false, [], Except.ok (), Except.ok (), Except.ok ()⟩
      "u".toList "m".toList rfl rfl).1.mpr ⟨rfl, rfl⟩
  · exact (C1_init_and_push_noop_vs_push
      ⟨Except.ok (), Except.ok (), false, ["f".toList], Except.ok (), Except.ok (),
        Except.ok ()⟩ "u".toList "m".toList rfl rfl).2.2
      (Or.inr (by simp)) rfl rfl rfl

lemma foldl_sizeStep_shift (files : List FileEnt) (a : Nat) :
    files.foldl sizeStep a = a + files.foldl sizeStep 0 := by
  induction files generalizing a with
  | nil => simp
  | cons f fs ih =>
    rw [List.foldl_cons, List.foldl_cons, ih (sizeStep a f), ih (sizeStep 0 f)]
    unfold sizeStep
    cases f.present
    · simp
    · simp
      omega

lemma foldl_sizeStep_all_present (files : List FileEnt)
    (h : ∀ f ∈ files, f.present = true) :
    files.foldl sizeStep 0 = (files.map FileEnt.size).sum := by
  induction files with
  | nil => rfl
  | cons f fs ih =>
    rw [List.foldl_cons, foldl_sizeStep_shift]
    have hf : f.present = true := h f (List.mem_cons_self f fs)
    rw [ih (fun g hg => h g (List.mem_cons_of_mem f hg))]
    simp [sizeStep, hf]

/-- C9: `get_directory_size` never raises (it is a total function into Nat):
on an empty directory it returns 0, when every file is still present it
returns the exact sum of the file sizes, when exactly one file vanished
mid-walk the result is the true sum minus exactly that file's size (so it
under-counts by at most the vanished file, and never over-counts), and on
total walk failure it returns 0 rather than propagating an error. -/
theorem C9_directory_size (walk : Except Unit (List FileEnt)) :
    (walk = Except.error () → get_directory_size walk = 0) ∧
      (walk = Except.ok [] → get_directory_size walk = 0) ∧
      (∀ files, walk = Except.ok files → (∀ f ∈ files, f.present = true) →
        get_directory_size walk = (files.map FileEnt.size).sum) ∧
      (∀ pre g post, walk = Except.ok (pre ++ g :: post) → g.present = false →
        (∀ f ∈ pre ++ post, f.present = true) →
        get_directory_size walk + g.size = ((pre ++ g :: post).map FileEnt.size).sum) := by
  refine ⟨?_, ?_, ?_, ?_⟩
  · rintro rfl
    rfl
  · rintro rfl
    rfl
  · rintro files rfl hall
    exact foldl_sizeStep_all_present files hall
  · rintro pre g post rfl hg hall
    show (pre ++ g :: post).foldl sizeStep 0 + g.size = _
    rw [List.foldl_append, foldl_sizeStep_shift, List.foldl_cons]
    have hpre : pre.foldl sizeStep 0 = (pre.map FileEnt.size).sum :=
      foldl_sizeStep_all_present pre
        (fun f hf => hall f (List.mem_append_left post hf))
    have hpost : post.foldl sizeStep 0 = (post.map FileEnt.size).sum :=
      foldl_sizeStep_all_present post
        (fun f hf => hall f (List.mem_append_right pre hf))
    rw [foldl_sizeStep_shift post (sizeStep 0 g), hpre, hpost]
    simp [sizeStep, hg, List.map_append, List.sum_append]
    omega

/-- C9 witness: the theorem applied to a three-file walk whose middle file
vanished, to the empty directory, and to the total-failure walk. -/
theorem C9_directory_size_witness :
    get_directory_size (Except.ok [⟨5, true⟩, ⟨7, false⟩, ⟨9, true⟩]) + 7 = 21 ∧
      get_directory_size (Except.ok []) = 0 ∧
      get_directory_size (Except.error ()) = 0 := by
  refine ⟨?_, ?_, ?_⟩
  · have h := (C9_directory_size (Except.ok [⟨5, true⟩, ⟨7, false⟩, ⟨9, true⟩])).2.2.2
      [⟨5, true⟩] ⟨7, false⟩ [⟨9, true⟩] rfl rfl (by decide)
    simpa using h
  · exact (C9_directory_size (Except.ok [])).2.1 rfl
  · exact (C9_directory_size (Except.error ())).1 rfl

/-- C10: after every `cleanup_temp_dirs` call the tracked list is empty —
also when removals fail — and every tracked path that exists receives
exactly its own removal attempt regardless of the outcomes recorded for the
other paths (a failure on one path does not prevent the attempts on the
rest, and the failed path is cleared from tracking rather than retained). -/
theorem C10_cleanup_clears_tracking (env : CleanupEnv) (dirs : List (List Char)) :
    (cleanup_temp_dirs env dirs).2 = [] ∧
      (∀ d, d ∈ dirs → env.pathExists d = true →
        (d, env.removeOk d) ∈ (cleanup_temp_dirs env dirs).1) := by
  refine ⟨rfl, ?_⟩
  intro d hd hex
  show (d, env.removeOk d) ∈ cleanupLoop env dirs
  induction dirs with
  | nil => cases hd
  | cons e es ih =>
    unfold cleanupLoop
    rcases List.mem_cons.mp hd with rfl | hmem
    · rw [hex]
      exact List.mem_cons_self _ _
    · by_cases he : env.pathExists e = true
      · rw [he]
        simp only [if_true]
        exact List.mem_cons_of_mem _ (ih hmem)
      · have he' : env.pathExists e = false := by
          cases h : env.pathExists e with
          | false => rfl
          | true => exact absurd h he
        rw [he']
        simp only [Bool.false_eq_true, if_false]
        exact ih hmem

/-- C10 witness: with two tracked existing paths of which the first fails to
remove, the second is still attempted and the tracked list ends empty. -/
theorem C10_cleanup_clears_tracking_witness :
    (cleanup_temp_dirs ⟨fun _ => true, fun p => decide (p ≠ "/tmp/a".toList)⟩
        ["/tmp/a".toList, "/tmp/b".toList]).2 = [] ∧
      ("/tmp/b".toList, true) ∈
        (cleanup_temp_dirs ⟨fun _ => true, fun p => decide (p ≠ "/tmp/a".toList)⟩
          ["/tmp/a".toList, "/tmp/b".toList]).1 := by
  have h := C10_cleanup_clears_tracking
    ⟨fun _ => true, fun p => decide (p ≠ "/tmp/a".toList)⟩
    ["/tmp/a".toList, "/tmp/b".toList]
  refine ⟨h.1, ?_⟩
  have hb := h.2 "/tmp/b".toList (by decide) rfl
  simpa using hb
